import Mathlib

/-!
Verification development for the yokto.js DOM utility library.

We shallowly embed the three stateful cores of `src/yokto.js`:

* the `LRUCache` class (lines 119–144) together with the module-level
  selector cache `_$` and its MutationObserver invalidation hook
  (lines 147–151) and `yokto.clearCache` (line 1184);
* the selection entry point `$` (lines 161–193), with the DOM's
  `querySelectorAll` abstracted as a function from selector strings to
  element lists and `WeakRef` values represented as `Option` (a `none`
  stored in the cache is a weak reference whose target was reclaimed);
* the hash router `$h` (lines 792–869): route-pattern compilation to an
  anchored regular expression, the route registry (a JS `Map`, whose
  iteration order is insertion order), and the `handleHash` dispatcher.

JS `Map`s and plain objects are represented as association lists in
iteration order (`Map` iteration order is insertion order; for the caches
the front of the list is the oldest entry).  Callbacks are opaque values
of a type parameter; a dispatch is represented by the list of effects it
performs (cache clear, callback invocation) in order.
-/

set_option autoImplicit false

namespace Yokto

universe u

variable {V : Type u} {E : Type u} {α : Type u}

/-- Association-list lookup, `Map.get` / JS object read: the value stored
under the first (in a well-formed map, only) entry with key `k`. -/
def findVal (k : String) : List (String × V) → Option V
  | [] => none
  | (k', v) :: rest => if k' = k then some v else findVal k rest

/-- `Map.has`. -/
def hasKey (k : String) : List (String × V) → Bool
  | [] => false
  | (k', _) :: rest => if k' = k then true else hasKey k rest

/-- `Map.delete`: remove the (first) entry with key `k`. -/
def eraseKey (k : String) : List (String × V) → List (String × V)
  | [] => []
  | (k', v) :: rest => if k' = k then rest else (k', v) :: eraseKey k rest

/-- `Map.set` / JS object assignment `obj[k] = v`: update the existing
entry in place (keeping its position) or append a fresh entry. -/
def setKey (k : String) (v : V) : List (String × V) → List (String × V)
  | [] => [(k, v)]
  | (k', v') :: rest => if k' = k then (k, v) :: rest else (k', v') :: setKey k v rest

/-- The keys of an association list, in order. -/
def keysOf (l : List (String × V)) : List String := l.map Prod.fst

/-- Build a JS object by assigning the pairs in order (`obj[k] = v` for
each pair); used both for router `params` and for the parsed query. -/
def assignAll (ps : List (String × String)) : List (String × String) :=
  ps.foldl (fun acc p => setKey p.1 p.2 acc) []

/-! ### LRUCache (yokto.js lines 119–144) -/

/-- The `LRUCache` class: a capacity bound `max` and a JS `Map` in
iteration (= insertion) order, front = oldest = least recently used. -/
structure LRUCache (V : Type u) where
  max : Nat
  cache : List (String × V)

/-- `LRUCache.get`: on a miss return `undefined`; on a hit delete and
re-insert the entry (moving it to the most-recently-used end) and return
the stored value.  The second component is the cache after the call. -/
def LRUCache.get (c : LRUCache V) (k : String) : Option V × LRUCache V :=
  match findVal k c.cache with
  | none => (none, c)
  | some v => (some v, ⟨c.max, eraseKey k c.cache ++ [(k, v)]⟩)

/-- `LRUCache.set`: delete the key if present, insert at the
most-recently-used end, and if the size now exceeds `max` delete the
first (least-recently-used) key. -/
def LRUCache.set (c : LRUCache V) (k : String) (v : V) : LRUCache V :=
  let m1 := if hasKey k c.cache then eraseKey k c.cache else c.cache
  let m2 := m1 ++ [(k, v)]
  if c.max < m2.length then ⟨c.max, m2.drop 1⟩ else ⟨c.max, m2⟩

/-- `LRUCache.delete`. -/
def LRUCache.delete (c : LRUCache V) (k : String) : LRUCache V :=
  ⟨c.max, eraseKey k c.cache⟩

/-- `LRUCache.clear`. -/
def LRUCache.clear (c : LRUCache V) : LRUCache V := ⟨c.max, []⟩

/-- `yokto.config.MAX_CACHE_SIZE`. -/
def MAX_CACHE_SIZE : Nat := 100

/-- The module-level selector cache
`_$ = new LRUCache(yokto.config.MAX_CACHE_SIZE || 100)` (line 145);
`x || 100` falls back to `100` when `x` is falsy (here: zero). -/
def initSelectorCache (V : Type u) : LRUCache V :=
  ⟨if MAX_CACHE_SIZE = 0 then 100 else MAX_CACHE_SIZE, []⟩

/-! ### MutationObserver invalidation (yokto.js lines 147–151) -/

/-- One delivered mutation record; the observer is registered with
`{ childList: true, subtree: true }`, so records describe child-list
mutations anywhere under the observed root. -/
structure MutationRecord where
  kind : String

/-- The observer options passed to `o.observe($doc.body, ...)`. -/
structure ObserverConfig where
  childList : Bool
  subtree : Bool

/-- `o.observe($doc.body, { childList: true, subtree: true })`. -/
def observeConfig : ObserverConfig := ⟨true, true⟩

/-- The observer callback `() => _$.clear()`: it receives the batch of
mutation records but ignores it and clears the whole selector cache. -/
def observerCallback (_records : List MutationRecord) (c : LRUCache V) : LRUCache V :=
  LRUCache.clear c

/-- `yokto.clearCache = () => _$.clear()` (line 1184). -/
def clearCache (c : LRUCache V) : LRUCache V := LRUCache.clear c

/-! ### The selection entry point `$` (yokto.js lines 161–193)

The DOM is abstracted as `qsa : String → List E`, the result of
`scope.querySelectorAll(query)` for each selector (we model the default
scope; the `try/catch` around it only rethrows on invalid selectors,
which we model as total functions).  A cached value is a `WeakRef` to a
node array: `some nodes` is a live reference whose `deref()` yields
`nodes`, `none` is a reference whose target was reclaimed. -/

/-- The JS return value of `$`: a single `Element`, an array, or `null`. -/
inductive SelResult (E : Type u) where
  | one (e : E)
  | many (es : List E)
  | nil
  deriving DecidableEq

/-- Lines 176–192 of `$`: the part after the cache probe.  Performs the
fresh DOM query, returns `null` for an empty result with
`return_list = false` (without caching), otherwise caches the node array
(when `useCache`) and returns a single element exactly when the query
result has length one and `return_list = false`.  The
`Array.from(elems).filter(el => el instanceof Element)` step is the
identity here since `querySelectorAll` yields only `Element`s. -/
def dollarQuery [Inhabited E] (qsa : String → List E) (query : String)
    (return_list useCache : Bool) (st : LRUCache (Option (List E))) :
    SelResult E × LRUCache (Option (List E)) :=
  let elems := qsa query
  if elems.length = 0 ∧ return_list = false then
    (SelResult.nil, st)
  else
    let nodes := elems
    let st' := if useCache then st.set query (some nodes) else st
    if elems.length = 1 ∧ return_list = false then
      (SelResult.one nodes.headI, st')
    else
      (SelResult.many nodes, st')

/-- The `$` function (lines 161–193).  With `useCache` it first probes
the LRU cache (`get` promotes on hit); a live cached array is returned
(unwrapped to its single element when it has length one and
`return_list = false`); a stale reference is deleted and the lookup
falls through to the fresh query. -/
def dollar [Inhabited E] (qsa : String → List E) (query : String)
    (return_list useCache : Bool) (st : LRUCache (Option (List E))) :
    SelResult E × LRUCache (Option (List E)) :=
  if useCache then
    match LRUCache.get st query with
    | (some ref, st1) =>
      match ref with
      | some cached =>
        if cached.length = 1 ∧ return_list = false then
          (SelResult.one cached.headI, st1)
        else
          (SelResult.many cached, st1)
      | none =>
        -- Clean stale WeakRef (line 173), then fall through to the query
        dollarQuery qsa query return_list useCache (st1.delete query)
    | (none, st1) => dollarQuery qsa query return_list useCache st1
  else
    dollarQuery qsa query return_list useCache st

/-! ### Hash router `$h` (yokto.js lines 792–869)

Route compilation (lines 809–818) rewrites the route string into a
regular expression source in four global-replace passes:

1. `/\/:([^\/]+)/g → '/([^\/]+)'`, recording each parameter name;
2. `/\//g → '\/'`; 3. `/\./g → '\.'`; 4. `/\*/g → '.*'`;

and the result is anchored as `^...$`.  On a route string built of
ordinary path characters (no raw regex metacharacters beyond the
`/ . * :` the passes treat), the generated regex is a concatenation of
three kinds of atoms, which we represent as tokens:

* a literal character (an escaped `\/` or `\.`, or a plain character);
* `([^\\/]+)` — a capture group for one or more characters that are
  neither `/` nor `\` (pass 2 escapes the `/` inside the inserted
  class `[^\/]`, turning it into `[^\\/]`, which also excludes `\`);
* `.*` — zero or more characters, where `.` excludes line terminators.

Matching is JS regex matching of this anchored concatenation: greedy
with backtracking, leftmost preference, capture groups reported in
order.  Percent-escapes in queries are modelled for the ASCII range
(multi-byte UTF-8 decoding of `%`-sequences is out of scope; no claim
involves them). -/

/-- One atom of the compiled route regex. -/
inductive Tok where
  | lit (c : Char)
  | capture
  | wild
  deriving DecidableEq

/-- Membership in the character class `[^\\/]` of a compiled capture
group: any character other than `/` and `\`. -/
def captChar (c : Char) : Bool := c ≠ '/' ∧ c ≠ '\\'

/-- What `.` matches in a JS regex without the `s` flag: any character
that is not a line terminator. -/
def dotChar (c : Char) : Bool :=
  c ≠ '\n' ∧ c ≠ '\r' ∧ c.toNat ≠ 0x2028 ∧ c.toNat ≠ 0x2029

/-- Length of the maximal prefix of `s` whose characters satisfy `p`:
the farthest a greedy `p+`/`p*` can reach. -/
def runLen (p : Char → Bool) (s : List Char) : Nat :=
  (s.takeWhile p).length

/-- Backtracking loop for a greedy `([^\\/]+)`: try consuming `k`
characters, then `k - 1`, ..., down to `1` (the group needs at least
one), returning the captured prefix together with the captures of the
rest-matcher `m` on the remaining input. -/
def capLoop (m : List Char → Option (List String)) (s : List Char) :
    Nat → Option (List String)
  | 0 => none
  | k + 1 =>
    match m (s.drop (k + 1)) with
    | some caps => some (String.mk (s.take (k + 1)) :: caps)
    | none => capLoop m s k

/-- Backtracking loop for a greedy `.*`: try consuming `k` characters
down to `0`. -/
def wildLoop (m : List Char → Option (List String)) (s : List Char) :
    Nat → Option (List String)
  | 0 => m s
  | k + 1 =>
    match m (s.drop (k + 1)) with
    | some caps => some caps
    | none => wildLoop m s k

/-- Anchored match of a compiled token sequence against the whole input,
with JS greedy/backtracking preference; on success returns the list of
capture-group values in order (`match[1]`, `match[2]`, ...). -/
def matchToks : List Tok → List Char → Option (List String)
  | [], s => if s.isEmpty then some [] else none
  | Tok.lit c :: ts, s =>
    match s with
    | [] => none
    | x :: xs => if x = c then matchToks ts xs else none
  | Tok.capture :: ts, s => capLoop (fun r => matchToks ts r) s (runLen captChar s)
  | Tok.wild :: ts, s => wildLoop (fun r => matchToks ts r) s (runLen dotChar s)
termination_by ts _ => ts.length

/-- `dropWhile` never lengthens a list (termination measure for the
compilation scan). -/
theorem dropWhile_length_le (p : Char → Bool) :
    ∀ l : List Char, (l.dropWhile p).length ≤ l.length := by
  intro l
  induction l with
  | nil => simp [List.dropWhile]
  | cons c rest ih =>
    by_cases h : p c
    · simpa [List.dropWhile, h] using Nat.le_succ_of_le ih
    · simp [List.dropWhile, h]

/-- Route compilation (lines 809–818) as a single scan producing the
token sequence and the parameter names, mirroring the four replace
passes: an occurrence of `/:` followed by at least one non-`/`
character becomes a literal `/` followed by a capture group, recording
the (maximal, greedy `[^\/]+`) name; a `*` becomes `.*`; every other
character — including the `\/`- and `\.`-escaped `/` and `.` — matches
itself literally. -/
def compileRoute : List Char → List Tok × List String
  | [] => ([], [])
  | '/' :: ':' :: c :: rest =>
    if c = '/' then
      -- `/:` with no name character: `\/:([^\/]+)` does not match here,
      -- so the `/` stays a literal and scanning resumes at the `:`.
      let (ts, ns) := compileRoute (':' :: c :: rest)
      (Tok.lit '/' :: ts, ns)
    else
      let name := c :: rest.takeWhile (fun a => a ≠ '/')
      let (ts, ns) := compileRoute (rest.dropWhile (fun a => a ≠ '/'))
      (Tok.lit '/' :: Tok.capture :: ts, String.mk name :: ns)
  | '/' :: ':' :: [] =>
    ([Tok.lit '/', Tok.lit ':'], [])
  | '*' :: rest =>
    let (ts, ns) := compileRoute rest
    (Tok.wild :: ts, ns)
  | c :: rest =>
    let (ts, ns) := compileRoute rest
    (Tok.lit c :: ts, ns)
termination_by s => s.length
decreasing_by
  all_goals simp_arith
  exact Nat.le_succ_of_le (Nat.le_succ_of_le (dropWhile_length_le _ _))

/-- A stored route definition (line 821): the compiled matcher, the
callback, and the ordered parameter names. -/
structure RouteDef (α : Type u) where
  regex : List Tok
  callback : α
  paramNames : List String
  deriving DecidableEq

/-- Whether (and with which captures) a stored route matches a path:
`path.match(r)` against the anchored compiled regex. -/
def routeMatch (rd : RouteDef α) (path : String) : Option (List String) :=
  matchToks rd.regex path.data

/-- The params object: `pn.forEach((name, i) => params[name] = match[i+1])`
(lines 840–842) — positional assignment of capture values to parameter
names (for compiled routes the two lists have equal length). -/
def paramsOf (pn : List String) (caps : List String) : List (String × String) :=
  assignAll (pn.zip caps)

/-! ### Hash parsing (lines 826–833) -/

/-- `$loc.hash.replace(/^#/, '')`: strip one leading `#`. -/
def stripHash (s : String) : String :=
  match s.data with
  | '#' :: rest => String.mk rest
  | _ => s

/-- `hash.split('?')` destructured as `[path, queryStr]`: the part
before the first `?`, and (if a `?` occurs) the part between the first
and second `?` (`split` discards nothing, but the destructuring keeps
only the first two fields). -/
def splitQ (s : String) : String × Option String :=
  let before := s.data.takeWhile (fun c => c ≠ '?')
  match s.data.dropWhile (fun c => c ≠ '?') with
  | [] => (String.mk before, none)
  | _ :: rest => (String.mk before, some (String.mk (rest.takeWhile (fun c => c ≠ '?'))))

/-- Hexadecimal digit value, if any. -/
def hexVal (c : Char) : Option Nat :=
  if '0' ≤ c ∧ c ≤ '9' then some (c.toNat - 48)
  else if 'A' ≤ c ∧ c ≤ 'F' then some (c.toNat - 55)
  else if 'a' ≤ c ∧ c ≤ 'f' then some (c.toNat - 87)
  else none

/-- `application/x-www-form-urlencoded` value decoding as performed by
`URLSearchParams`: `+` becomes a space and `%hh` percent-escapes are
decoded (modelled for the ASCII range; a `%` not followed by two hex
digits stays literal, and multi-byte UTF-8 escape sequences are out of
scope for this development — no claim involves them). -/
def pctDecode : List Char → List Char
  | [] => []
  | '%' :: h1 :: h2 :: rest =>
    match hexVal h1, hexVal h2 with
    | some a, some b =>
      if 16 * a + b < 128 then Char.ofNat (16 * a + b) :: pctDecode rest
      else '%' :: pctDecode (h1 :: h2 :: rest)
    | _, _ => '%' :: pctDecode (h1 :: h2 :: rest)
  | '+' :: rest => ' ' :: pctDecode rest
  | c :: rest => c :: pctDecode rest

/-- `String.split` on a separator character (keeping empty fields, as
JS `split` does). -/
def splitChar (sep : Char) : List Char → List (List Char)
  | [] => [[]]
  | c :: rest =>
    if c = sep then [] :: splitChar sep rest
    else
      match splitChar sep rest with
      | [] => [[c]]
      | g :: gs => (c :: g) :: gs

/-- One `name=value` piece of a query string: split at the first `=`
(no `=` means an empty value), decoding both sides. -/
def queryPair (piece : List Char) : String × String :=
  let name := piece.takeWhile (fun c => c ≠ '=')
  match piece.dropWhile (fun c => c ≠ '=') with
  | [] => (String.mk (pctDecode name), "")
  | _ :: v => (String.mk (pctDecode name), String.mk (pctDecode v))

/-- The ordered name/value pairs produced by iterating
`new URLSearchParams(queryStr)` (lines 830–832): strip one leading `?`,
split on `&`, skip empty pieces, split each piece at its first `=`. -/
def queryPairs (qs : String) : List (String × String) :=
  let body := match qs.data with
    | '?' :: rest => rest
    | l => l
  ((splitChar '&' body).filter (fun p => p ≠ [])).map queryPair

/-- The `query` object of `handleHash`: each pair assigned in order
(`query[key] = value`), so for a repeated key the last pair wins.  The
`if (queryStr)` guard skips parsing when `queryStr` is `undefined`
(no `?` in the fragment) or the empty string. -/
def queryObj (queryStr : Option String) : List (String × String) :=
  match queryStr with
  | none => []
  | some qs => if qs = "" then [] else assignAll (queryPairs qs)

/-- Line 826, `$loc.hash.replace(/^#/, '') || '/'`: the fragment with
its `#` stripped, the *whole fragment* defaulted to `/` when it is the
empty string (the `||` applies before the `?`-split). -/
def routerFragment (rawHash : String) : String :=
  if stripHash rawHash = "" then "/" else stripHash rawHash

/-- The `path` and `query` a dispatch computes from the raw
`$loc.hash` value (lines 826–833): strip `#`, default the whole
fragment to `/` when it is empty, split at `?`, parse the query. -/
def routerPQ (rawHash : String) : String × List (String × String) :=
  let (path, queryStr) := splitQ (routerFragment rawHash)
  (path, queryObj queryStr)

/-! ### Dispatch (lines 835–859) -/

/-- An observable effect of a dispatch, in execution order. -/
inductive HEv (α : Type u) where
  | clearCache
  | invokeRoute (cb : α) (path : String)
      (params : List (String × String)) (query : List (String × String))
  | invokeDefault (cb : α) (path : String)
      (params : List (String × String)) (query : List (String × String))
  deriving DecidableEq

/-- Whether a dispatch effect is a callback invocation (route or
default), as opposed to the cache clear. -/
def HEv.isInvoke : HEv α → Bool
  | HEv.clearCache => false
  | _ => true

/-- The `for (const [routeKey, {...}] of routes)` loop with `break`:
the first registered definition whose matcher accepts the path, with
its captures. -/
def firstMatch (routes : List (String × RouteDef α)) (path : String) :
    Option (RouteDef α × List String) :=
  match routes with
  | [] => none
  | (_, rd) :: rest =>
    match routeMatch rd path with
    | some caps => some (rd, caps)
    | none => firstMatch rest path

/-- `handleHash` as the list of effects of one dispatch: parse the
fragment; on the first matching route clear the cache and invoke its
callback with `{path, params, query}`; otherwise, when a default route
is registered, clear the cache and invoke it with `params = {}`. -/
def handleHash (routes : List (String × RouteDef α)) (defaultRoute : Option α)
    (rawHash : String) : List (HEv α) :=
  let (path, query) := routerPQ rawHash
  match firstMatch routes path with
  | some (rd, caps) =>
    [HEv.clearCache, HEv.invokeRoute rd.callback path (paramsOf rd.paramNames caps) query]
  | none =>
    match defaultRoute with
    | some d => [HEv.clearCache, HEv.invokeDefault d path [] query]
    | none => []

/-- Effect of one dispatch event on the selector cache: `clearCache`
empties it (`yokto.clearCache`); a callback invocation is opaque. -/
def applyEv (st : LRUCache V) : HEv α → LRUCache V
  | HEv.clearCache => clearCache st
  | _ => st

/-! ### Registration `$h(route, callback)` (lines 792–869) -/

/-- A JS argument as `$h` discriminates it by `typeof`: a function, a
string, or anything else. -/
inductive Arg (α : Type u) where
  | fn (f : α)
  | str (s : String)
  | other
  deriving DecidableEq

/-- The mutable state attached to `$h`: the route registry map, the
default route, and the initialized flag. -/
structure HState (α : Type u) where
  routes : List (String × RouteDef α)
  defaultRoute : Option α
  initialized : Bool
  deriving DecidableEq

/-- The state before any `$h` call. -/
def hInit (α : Type u) : HState α := ⟨[], none, false⟩

/-- One call `$h(route, callback)`: a function as `route` registers the
default callback and returns; a non-string `route` or non-function
`callback` throws `'Invalid route or callback'` (modelled as
`some errorMessage`, leaving the state unchanged); otherwise the route
is compiled, stored under its pattern string (`routes.set`), and the
router is initialized on first successful registration (subscribing
`handleHash` and setting `$h.initialized`). -/
def hCall (st : HState α) (route : Arg α) (callback : Arg α) :
    HState α × Option String :=
  match route with
  | Arg.fn f => ({ st with defaultRoute := some f }, none)
  | _ =>
    match route, callback with
    | Arg.str s, Arg.fn f =>
      let (ts, ns) := compileRoute s.data
      let st' := { st with routes := setKey s ⟨ts, f, ns⟩ st.routes }
      if st'.initialized then (st', none)
      else ({ st' with initialized := true }, none)
    | _, _ => (st, some "Invalid route or callback")

/-! ## Lemmas about the association-list primitives -/

theorem findVal_none_iff (k : String) :
    ∀ l : List (String × V), findVal k l = none ↔ hasKey k l = false
  | [] => by simp [findVal, hasKey]
  | (k', v) :: r => by
    by_cases h : k' = k
    · simp [findVal, hasKey, h]
    · simpa [findVal, hasKey, h] using findVal_none_iff k r

theorem hasKey_tail (k k' : String) (v : V) (r : List (String × V))
    (h : hasKey k ((k', v) :: r) = false) : hasKey k r = false := by
  by_cases hk : k' = k
  · simp [hasKey, hk] at h
  · simpa [hasKey, hk] using h

theorem head_key_ne (k k' : String) (v : V) (r : List (String × V))
    (h : hasKey k ((k', v) :: r) = false) : k' ≠ k := by
  intro hk
  simp [hasKey, hk] at h

theorem findVal_append_right (k : String) :
    ∀ l₁ l₂ : List (String × V), hasKey k l₁ = false →
      findVal k (l₁ ++ l₂) = findVal k l₂
  | [], l₂, _ => rfl
  | (k', v) :: r, l₂, h => by
    have hk : k' ≠ k := head_key_ne k k' v r h
    simpa [findVal, hk] using findVal_append_right k r l₂ (hasKey_tail k k' v r h)

theorem hasKey_iff_mem (k : String) :
    ∀ l : List (String × V), hasKey k l = true ↔ k ∈ keysOf l
  | [] => by simp [hasKey, keysOf]
  | (k', v) :: r => by
    by_cases h : k' = k
    · simp [hasKey, keysOf, h]
    · simpa [hasKey, keysOf, h, Ne.symm h] using hasKey_iff_mem k r

theorem hasKey_eraseKey_self (k : String) :
    ∀ l : List (String × V), (keysOf l).Nodup → hasKey k (eraseKey k l) = false
  | [], _ => rfl
  | (k', v) :: r, h => by
    have h' : (k' :: keysOf r).Nodup := h
    have hh := List.nodup_cons.mp h'
    by_cases hk : k' = k
    · subst hk
      have : ¬ hasKey k' r = true := fun hmem => hh.1 ((hasKey_iff_mem k' r).mp hmem)
      simpa [eraseKey] using Bool.of_not_eq_true this
    · simpa [eraseKey, hk, hasKey, hk] using hasKey_eraseKey_self k r hh.2

theorem eraseKey_append_left (k : String) :
    ∀ l₁ l₂ : List (String × V), hasKey k l₁ = false →
      eraseKey k (l₁ ++ l₂) = l₁ ++ eraseKey k l₂
  | [], l₂, _ => rfl
  | (k', v) :: r, l₂, h => by
    have hk : k' ≠ k := head_key_ne k k' v r h
    simpa [eraseKey, hk] using eraseKey_append_left k r l₂ (hasKey_tail k k' v r h)

theorem eraseKey_length_le (k : String) :
    ∀ l : List (String × V), (eraseKey k l).length ≤ l.length
  | [] => Nat.le_refl _
  | (k', v) :: r => by
    by_cases hk : k' = k
    · simp [eraseKey, hk]
    · simpa [eraseKey, hk] using eraseKey_length_le k r

theorem findVal_setKey (k k' : String) (v : V) :
    ∀ l : List (String × V),
      findVal k (setKey k' v l) = if k' = k then some v else findVal k l
  | [] => by simp [setKey, findVal]
  | (a, b) :: r => by
    by_cases ha : a = k'
    · subst ha
      by_cases hk : a = k <;> simp [setKey, findVal, hk]
    · by_cases hk : a = k
      · subst hk
        have : ¬ a = k' := ha
        simp [setKey, findVal, ha, Ne.symm ha]
      · simpa [setKey, findVal, ha, hk] using findVal_setKey k k' v r

theorem assignAll_append (ps : List (String × String)) (p : String × String) :
    assignAll (ps ++ [p]) = setKey p.1 p.2 (assignAll ps) := by
  simp [assignAll, List.foldl_append]

/-- Last-occurrence-wins: looking a key up in the object built by
assigning all pairs in order finds the value of the key's *last* pair. -/
theorem findVal_assignAll (k : String) (ps : List (String × String)) :
    findVal k (assignAll ps) = findVal k ps.reverse := by
  induction ps using List.reverseRecOn with
  | nil => rfl
  | append_singleton l p ih =>
    rw [assignAll_append, List.reverse_append]
    by_cases h : p.1 = k <;> simp [findVal_setKey, findVal, h, ih]

/-! ## Lemmas about the LRU cache operations -/

theorem findVal_set_self (c : LRUCache V) (k : String) (v : V)
    (h : hasKey k c.cache = false) :
    findVal k ((c.set k v).cache) = some v ∨ findVal k ((c.set k v).cache) = none := by
  unfold LRUCache.set
  simp only [h, Bool.false_eq_true, if_false]
  by_cases hd : c.max < (c.cache ++ [(k, v)]).length
  · simp only [hd, if_true]
    match hc : c.cache with
    | [] => right; simp [findVal]
    | (k', v') :: r =>
      left
      have hr : hasKey k r = false := hasKey_tail k k' v' r (by rw [← hc]; exact h)
      simp [findVal_append_right k r [(k, v)] hr, findVal]
  · simp only [hd, if_false]
    left
    simp [findVal_append_right k c.cache [(k, v)] h, findVal]

theorem findVal_set_self_live (c : LRUCache V) (k : String) (v : V)
    (h : hasKey k c.cache = false) (hmax : 0 < c.max) :
    findVal k ((c.set k v).cache) = some v := by
  unfold LRUCache.set
  simp only [h, Bool.false_eq_true, if_false]
  by_cases hd : c.max < (c.cache ++ [(k, v)]).length
  · simp only [hd, if_true]
    match hc : c.cache with
    | [] =>
      rw [hc] at hd
      simp at hd
      exact absurd hmax (by omega)
    | (k', v') :: r =>
      have hr : hasKey k r = false := hasKey_tail k k' v' r (by rw [← hc]; exact h)
      simp [findVal_append_right k r [(k, v)] hr, findVal]
  · simp only [hd, if_false]
    simp [findVal_append_right k c.cache [(k, v)] h, findVal]

/-! ## Lemmas about dispatch -/

theorem firstMatch_append_none (path : String) :
    ∀ pre rest : List (String × RouteDef α),
      (∀ p ∈ pre, routeMatch p.2 path = none) →
      firstMatch (pre ++ rest) path = firstMatch rest path
  | [], rest, _ => rfl
  | (k, rd) :: pre, rest, h => by
    have h1 : routeMatch rd path = none := h (k, rd) (by simp)
    have h2 : ∀ p ∈ pre, routeMatch p.2 path = none := fun p hp => h p (by simp [hp])
    simpa [firstMatch, h1] using firstMatch_append_none path pre rest h2

theorem firstMatch_eq_none (path : String) (routes : List (String × RouteDef α))
    (h : ∀ p ∈ routes, routeMatch p.2 path = none) :
    firstMatch routes path = none := by
  have := firstMatch_append_none path routes [] h
  simpa [firstMatch] using this

/-! ## Claim theorems -/

/-- C3: the selector cache implements a bounded LRU policy: `set`
preserves the capacity bound (default 100, the capacity of the
module-level cache); inserting a fresh key into a full cache evicts
exactly the least-recently-used (front) entry, keeping the rest and
placing the new entry at the most-recently-used end; a `get` hit
promotes the looked-up entry to most-recently-used; and with capacity
2, inserting keys `a, b, c` in that order evicts `a`, so `get "a"`
afterwards is a miss. -/
theorem c3_lru_bounded_eviction_promotion :
    (∀ (c : LRUCache V) (k : String) (v : V),
        c.cache.length ≤ c.max → (LRUCache.set c k v).cache.length ≤ c.max) ∧
    (∀ (c : LRUCache V) (k k₀ : String) (v v₀ : V) (rest : List (String × V)),
        (keysOf c.cache).Nodup → c.cache = (k₀, v₀) :: rest →
        c.cache.length = c.max → hasKey k c.cache = false →
        (LRUCache.set c k v).cache = rest ++ [(k, v)] ∧
        findVal k₀ ((LRUCache.set c k v).cache) = none ∧
        findVal k ((LRUCache.set c k v).cache) = some v) ∧
    (∀ (c : LRUCache V) (k : String) (v : V),
        findVal k c.cache = some v →
        LRUCache.get c k = (some v, ⟨c.max, eraseKey k c.cache ++ [(k, v)]⟩)) ∧
    (initSelectorCache V).max = 100 ∧
    (∀ va vb vc : V,
        (LRUCache.get ((((⟨2, []⟩ : LRUCache V).set "a" va).set "b" vb).set "c" vc)
          "a").1 = none) := by
  refine ⟨?_, ?_, ?_, rfl, fun va vb vc => rfl⟩
  · intro c k v h
    have he := eraseKey_length_le k c.cache
    unfold LRUCache.set
    by_cases hk : hasKey k c.cache <;>
      simp only [hk, if_true, Bool.false_eq_true, if_false] <;>
      split <;> rename_i hd <;> simp_all <;> omega
  · intro c k k₀ v v₀ rest hnd hc hlen hk
    have hne : k₀ ≠ k := head_key_ne k k₀ v₀ rest (hc ▸ hk)
    have hrest : hasKey k rest = false := hasKey_tail k k₀ v₀ rest (hc ▸ hk)
    have hnd' : (k₀ :: keysOf rest).Nodup := by rw [hc] at hnd; exact hnd
    have hk₀rest : hasKey k₀ rest = false := by
      rcases List.nodup_cons.mp hnd' with ⟨hmem, _⟩
      rcases hb : hasKey k₀ rest with _ | _
      · rfl
      · exact absurd ((hasKey_iff_mem k₀ rest).mp hb) hmem
    have hset : (LRUCache.set c k v).cache = rest ++ [(k, v)] := by
      unfold LRUCache.set
      simp only [hk, Bool.false_eq_true, if_false]
      rw [hc]
      have hd : c.max < (((k₀, v₀) :: rest) ++ [(k, v)]).length := by
        rw [← hc]
        simp [← hlen]
      have hd' : c.max < rest.length + 1 + 1 := by simpa using hd
      simp [hd']
    refine ⟨hset, ?_, ?_⟩
    · rw [hset, findVal_append_right k₀ rest [(k, v)] hk₀rest]
      simp [findVal]
      exact fun h => hne h.symm
    · rw [hset, findVal_append_right k rest [(k, v)] hrest]
      simp [findVal]
  · intro c k v h
    simp [LRUCache.get, h]

/-- Witness for C3 at concrete inputs: a `set` on a full capacity-2
cache keeps the bound, evicts the front entry and appends the new one;
a `get` hit returns the value and moves the entry to the end. -/
theorem c3_lru_witness :
    (LRUCache.set (⟨2, [("a", 0), ("b", 1)]⟩ : LRUCache Nat) "c" 2).cache.length ≤ 2 ∧
    ((LRUCache.set (⟨2, [("a", 0), ("b", 1)]⟩ : LRUCache Nat) "c" 2).cache
        = [("b", 1), ("c", 2)] ∧
      findVal "a" (LRUCache.set (⟨2, [("a", 0), ("b", 1)]⟩ : LRUCache Nat) "c" 2).cache
        = none ∧
      findVal "c" (LRUCache.set (⟨2, [("a", 0), ("b", 1)]⟩ : LRUCache Nat) "c" 2).cache
        = some 2) ∧
    LRUCache.get (⟨2, [("a", 0), ("b", 1)]⟩ : LRUCache Nat) "a"
      = (some 0, ⟨2, eraseKey "a" [("a", 0), ("b", 1)] ++ [("a", 0)]⟩) := by
  refine ⟨?_, ?_, ?_⟩
  · exact c3_lru_bounded_eviction_promotion.1 ⟨2, [("a", 0), ("b", 1)]⟩ "c" 2 (by decide)
  · exact c3_lru_bounded_eviction_promotion.2.1 ⟨2, [("a", 0), ("b", 1)]⟩ "c" "a" 2 0
      [("b", 1)] (by decide) rfl (by decide) (by decide)
  · exact c3_lru_bounded_eviction_promotion.2.2.1 ⟨2, [("a", 0), ("b", 1)]⟩ "a" 0 rfl

/-- C4: when a batch of mutation records is delivered to the
document-wide observer (registered for child-list mutations in the
whole subtree), the callback clears the entire selector cache
unconditionally — whatever the records and the cache contents, every
subsequent lookup of every selector is a miss. -/
theorem c4_coarse_invalidation (records : List MutationRecord) (c : LRUCache V)
    (s : String) :
    (LRUCache.get (observerCallback records c) s).1 = none ∧
    (observerCallback records c).cache = [] ∧
    observeConfig.childList = true ∧ observeConfig.subtree = true :=
  ⟨rfl, rfl, rfl, rfl⟩

/-- Either `dropWhile p` empties the list or its head falsifies `p`. -/
theorem dropWhile_head_falsifies (p : Char → Bool) :
    ∀ l : List Char, l.dropWhile p = [] ∨
      ∃ c rest, l.dropWhile p = c :: rest ∧ p c = false
  | [] => Or.inl rfl
  | c :: rest => by
    by_cases h : p c
    · simpa [List.dropWhile, h] using dropWhile_head_falsifies p rest
    · right
      exact ⟨c, rest, by simp [List.dropWhile, h], by simpa using h⟩

/-- C1: after registering pattern `/user/:id`, dispatching `/user/42`
clears the cache and invokes that route's callback with
`params = {id: "42"}`, the value extracted positionally by the stored
parameter-name list; and a registered `/a/b` — compiled to a matcher
anchored at both ends — does not match `/a/b/c` (no effect at all on
that dispatch) although it does match `/a/b` exactly. -/
theorem c1_router_matching_anchored :
    (let st := (hCall (hInit Nat) (Arg.str "/user/:id") (Arg.fn 0)).1
     handleHash st.routes st.defaultRoute "#/user/42" =
       [HEv.clearCache, HEv.invokeRoute 0 "/user/42" [("id", "42")] []]) ∧
    (let st := (hCall (hInit Nat) (Arg.str "/a/b") (Arg.fn 0)).1
     handleHash st.routes st.defaultRoute "#/a/b/c" = [] ∧
     handleHash st.routes st.defaultRoute "#/a/b" =
       [HEv.clearCache, HEv.invokeRoute 0 "/a/b" [] []]) := by
  refine ⟨?_, ?_, ?_⟩ <;>
    simp [hCall, hInit, compileRoute, handleHash, routerPQ, routerFragment, firstMatch,
      routeMatch, matchToks, capLoop, wildLoop, runLen, captChar, dotChar, stripHash,
      splitQ, queryObj, setKey, paramsOf, assignAll, queryPairs, splitChar, queryPair,
      pctDecode, hexVal]

/-- C2: dispatch is first-match-wins in registration order: when every
route registered before `rd` fails to match the dispatched path and
`rd` matches it with captures `caps`, the dispatch consists of exactly
the cache clear and the invocation of `rd`'s callback — no
later-registered route's callback is invoked on that dispatch, whether
or not its matcher would also accept the path. -/
theorem c2_first_match_wins (pre post : List (String × RouteDef α)) (key : String)
    (rd : RouteDef α) (d : Option α) (h path : String)
    (query : List (String × String)) (caps : List String)
    (hpq : routerPQ h = (path, query))
    (hpre : ∀ p ∈ pre, routeMatch p.2 path = none)
    (hmatch : routeMatch rd path = some caps) :
    handleHash (pre ++ (key, rd) :: post) d h =
      [HEv.clearCache,
       HEv.invokeRoute rd.callback path (paramsOf rd.paramNames caps) query] := by
  simp only [handleHash, hpq]
  rw [firstMatch_append_none path pre ((key, rd) :: post) hpre]
  simp [firstMatch, hmatch]

/-- Witness for C2: `/x` and `/:w` are registered in that order and
both match the dispatched path `/x`, but only the first-registered
handler fires. -/
theorem c2_first_match_witness :
    handleHash
        [("/x", ⟨(compileRoute "/x".data).1, (1 : Nat), (compileRoute "/x".data).2⟩),
         ("/:w", ⟨(compileRoute "/:w".data).1, 2, (compileRoute "/:w".data).2⟩)]
        none "#/x" = [HEv.clearCache, HEv.invokeRoute 1 "/x" [] []] ∧
    routeMatch ⟨(compileRoute "/:w".data).1, (2 : Nat), (compileRoute "/:w".data).2⟩ "/x"
      = some ["x"] := by
  constructor
  · have h1 := c2_first_match_wins []
      [("/:w", ⟨(compileRoute "/:w".data).1, 2, (compileRoute "/:w".data).2⟩)] "/x"
      ⟨(compileRoute "/x".data).1, 1, (compileRoute "/x".data).2⟩ none "#/x" "/x" [] []
      rfl (by simp)
      (by simp [routeMatch, compileRoute, matchToks, capLoop, runLen, captChar])
    simpa [paramsOf, compileRoute, assignAll] using h1
  · simp [routeMatch, compileRoute, matchToks, capLoop, runLen, captChar]

/-- C6: on every dispatch, whichever callback is invoked (a matched
route's or the default), the cache-clear effect happens first: any
invocation effect in the dispatch's effect list is preceded by the
clear, and folding the effects before the invocation over any starting
selector cache leaves an empty cache. -/
theorem c6_cache_cleared_before_invoke (routes : List (String × RouteDef α))
    (d : Option α) (h : String) (st : LRUCache V) (i : Nat) (ev : HEv α)
    (hev : (handleHash routes d h)[i]? = some ev) (hinv : ev.isInvoke = true) :
    (((handleHash routes d h).take i).foldl applyEv st).cache = [] ∧
    (handleHash routes d h)[0]? = some HEv.clearCache := by
  rcases hpq : routerPQ h with ⟨path, query⟩
  rcases hfm : firstMatch routes path with _ | ⟨rd, caps⟩
  · rcases d with _ | d'
    · simp [handleHash, hpq, hfm] at hev
    · rcases i with _ | _ | n
      · simp [handleHash, hpq, hfm] at hev
        rw [← hev] at hinv
        simp [HEv.isInvoke] at hinv
      · exact ⟨by simp [handleHash, hpq, hfm, applyEv, clearCache, LRUCache.clear],
          by simp [handleHash, hpq, hfm]⟩
      · simp [handleHash, hpq, hfm] at hev
  · rcases i with _ | _ | n
    · simp [handleHash, hpq, hfm] at hev
      rw [← hev] at hinv
      simp [HEv.isInvoke] at hinv
    · exact ⟨by simp [handleHash, hpq, hfm, applyEv, clearCache, LRUCache.clear],
        by simp [handleHash, hpq, hfm]⟩
    · simp [handleHash, hpq, hfm] at hev

/-- Witness for C6 at a concrete dispatch: with no routes and a default
callback, the fragment `""` dispatches `[clearCache, invokeDefault]`,
and the non-empty starting cache is empty by the time the invocation is
reached. -/
theorem c6_witness :
    (((handleHash ([] : List (String × RouteDef Nat)) (some 0) "").take 1).foldl applyEv
        (⟨100, [("div", (5 : Nat))]⟩ : LRUCache Nat)).cache = [] ∧
    (handleHash ([] : List (String × RouteDef Nat)) (some 0) "")[0]?
      = some HEv.clearCache :=
  c6_cache_cleared_before_invoke [] (some 0) "" ⟨100, [("div", 5)]⟩ 1
    (HEv.invokeDefault 0 "/" [] []) rfl rfl

/-- C7: when no registered route matches the dispatched path and a
default callback is registered, the dispatch invokes exactly that
default callback with the path, an empty params object, and the parsed
query. -/
theorem c7_default_fallback (routes : List (String × RouteDef α)) (d : α)
    (h path : String) (query : List (String × String))
    (hpq : routerPQ h = (path, query))
    (hnone : ∀ p ∈ routes, routeMatch p.2 path = none) :
    handleHash routes (some d) h =
      [HEv.clearCache, HEv.invokeDefault d path [] query] := by
  simp only [handleHash, hpq]
  rw [firstMatch_eq_none path routes hnone]

/-- C5 counterexample: for the fragment `#?a=1` the dispatched path is
the empty string, not `/`: the `|| '/'` default applies to the whole
fragment before the `?`-split, so an empty path is not defaulted when a
query component is present — contradicting the claim's "defaults the
path to `/` when empty". -/
theorem c5_counterexample_empty_path :
    (routerPQ "#?a=1").1 = "" ∧ (routerPQ "#?a=1").1 ≠ "/" ∧
    handleHash ([] : List (String × RouteDef Nat)) (some 0) "#?a=1" =
      [HEv.clearCache, HEv.invokeDefault 0 "" [] [("a", "1")]] :=
  ⟨rfl, by decide, rfl⟩

/-- C5 (amended): on every dispatch the router reads the current
fragment and defaults the *whole fragment* to `/` when it is empty;
it then splits the fragment at its first `?` into the path — which
contains no `?` and is exactly the fragment up to the first `?` (so a
fragment starting with `?` yields an empty path, not `/`) — and a
query-string component, parsed into a flat mapping where for every
repeated key the last occurrence's value wins. -/
theorem c5_fragment_split_last_wins (rawHash k : String) :
    (stripHash rawHash = "" → routerPQ rawHash = ("/", [])) ∧
    ('?' ∉ (routerPQ rawHash).1.data) ∧
    ((routerFragment rawHash).data = (routerPQ rawHash).1.data ∨
      ∃ rest, (routerFragment rawHash).data = (routerPQ rawHash).1.data ++ '?' :: rest) ∧
    (∀ qs : String, qs ≠ "" →
      findVal k (queryObj (some qs)) = findVal k (queryPairs qs).reverse) := by
  rcases hs : splitQ (routerFragment rawHash) with ⟨p, qstr⟩
  have hroute : routerPQ rawHash = (p, queryObj qstr) := by
    simp [routerPQ, hs]
  have hp : p.data = (routerFragment rawHash).data.takeWhile (fun c => c ≠ '?') := by
    unfold splitQ at hs
    rcases hdw : (routerFragment rawHash).data.dropWhile (fun c => c ≠ '?')
        with _ | ⟨c, rest⟩ <;>
      rw [hdw] at hs <;>
      · have := (Prod.mk.injEq _ _ _ _ ▸ hs).1
        simp [← this]
  refine ⟨?_, ?_, ?_, ?_⟩
  · intro h
    simp [routerPQ, routerFragment, h, splitQ, queryObj, List.takeWhile, List.dropWhile]
  · rw [hroute]
    intro hmem
    have := List.mem_takeWhile_imp (hp ▸ hmem)
    simp at this
  · rw [hroute]
    rcases dropWhile_head_falsifies (fun c => c ≠ '?') (routerFragment rawHash).data
        with hdw | ⟨c, rest, hdw, hc⟩
    · left
      have := List.takeWhile_append_dropWhile
        (p := fun c => c ≠ '?') (l := (routerFragment rawHash).data)
      rw [hdw] at this
      simpa [hp] using this.symm
    · right
      have hcq : c = '?' := by simpa using hc
      refine ⟨rest, ?_⟩
      have := List.takeWhile_append_dropWhile
        (p := fun c => c ≠ '?') (l := (routerFragment rawHash).data)
      rw [hdw, hcq] at this
      simpa [hp] using this.symm
  · intro qs hq
    simp [queryObj, hq, findVal_assignAll]

/-- Witness for C5 (amended) at concrete inputs: the fragment `#` is
defaulted to path `/` with an empty query, and in `a=1&b=2&a=3` the
last `a` pair wins. -/
theorem c5_witness :
    routerPQ "#" = ("/", []) ∧
    findVal "a" (queryObj (some "a=1&b=2&a=3")) = some "3" := by
  refine ⟨(c5_fragment_split_last_wins "#" "a").1 rfl, ?_⟩
  rw [(c5_fragment_split_last_wins "#" "a").2.2.2 "a=1&b=2&a=3" (by decide)]
  rfl

/-- Witness for C7: `/a/b` is registered but `/x?q=1` is dispatched, so
the default callback receives `{path: "/x", params: {}, query: {q: "1"}}`. -/
theorem c7_default_witness :
    handleHash
        [("/a/b", ⟨(compileRoute "/a/b".data).1, (3 : Nat), (compileRoute "/a/b".data).2⟩)]
        (some 9) "#/x?q=1"
      = [HEv.clearCache, HEv.invokeDefault 9 "/x" [] [("q", "1")]] :=
  c7_default_fallback _ 9 "#/x?q=1" "/x" [("q", "1")] rfl (by
    intro p hp
    simp at hp
    rw [hp]
    simp [routeMatch, compileRoute, matchToks])

/-- C9: registering with a non-string pattern and a non-callable
handler fails synchronously with `'Invalid route or callback'` and is
fatal to that call only: the route registry, the default callback and
the initialized flag are unchanged, and dispatch over the registry
behaves exactly as before the failed call. -/
theorem c9_invalid_registration (st : HState α) (r cb : Arg α)
    (hrs : ∀ s, r ≠ Arg.str s) (hrf : ∀ f, r ≠ Arg.fn f)
    (hcb : ∀ f, cb ≠ Arg.fn f) :
    hCall st r cb = (st, some "Invalid route or callback") ∧
    (hCall st r cb).1.routes = st.routes ∧
    (hCall st r cb).1.defaultRoute = st.defaultRoute ∧
    (hCall st r cb).1.initialized = st.initialized ∧
    (∀ (d : Option α) (h : String),
      handleHash (hCall st r cb).1.routes d h = handleHash st.routes d h) := by
  have hr : r = Arg.other := by
    cases r with
    | fn f => exact absurd rfl (hrf f)
    | str s => exact absurd rfl (hrs s)
    | other => rfl
  subst hr
  have hmain : hCall st Arg.other cb = (st, some "Invalid route or callback") := by
    cases cb with
    | fn f => exact absurd rfl (hcb f)
    | str s => simp [hCall]
    | other => simp [hCall]
  exact ⟨hmain, by rw [hmain], by rw [hmain], by rw [hmain], fun d h => by rw [hmain]⟩

/-- Witness for C9: after a successful registration of `/a/b`, a call
with both arguments of the wrong type errors and leaves the state
exactly as it was. -/
theorem c9_witness :
    hCall ((hCall (hInit Nat) (Arg.str "/a/b") (Arg.fn 0)).1) Arg.other Arg.other
      = ((hCall (hInit Nat) (Arg.str "/a/b") (Arg.fn 0)).1,
         some "Invalid route or callback") :=
  (c9_invalid_registration ((hCall (hInit Nat) (Arg.str "/a/b") (Arg.fn 0)).1)
    Arg.other Arg.other (fun s h => Arg.noConfusion h) (fun f h => Arg.noConfusion h)
    (fun f h => Arg.noConfusion h)).1

/-- The value `$` returns from a fresh query depends only on the query
result, not on the cache state or the `useCache` flag. -/
theorem dollarQuery_fst {E : Type u} [Inhabited E] (qsa : String → List E)
    (q : String) (rl : Bool) (u u' : Bool)
    (st st' : LRUCache (Option (List E))) :
    (dollarQuery qsa q rl u st).1 = (dollarQuery qsa q rl u' st').1 := by
  unfold dollarQuery
  by_cases hc1 : (qsa q).length = 0 ∧ rl = false
  · rw [if_pos hc1, if_pos hc1]
  · rw [if_neg hc1, if_neg hc1]
    by_cases hc2 : (qsa q).length = 1 ∧ rl = false
    · rw [if_pos hc2, if_pos hc2]
    · rw [if_neg hc2, if_neg hc2]

/-- C8: a cached entry whose weakly-held node array was reclaimed is
non-fatal for the next cache-using lookup of that selector: the call
returns exactly what the uncached call would (a fresh DOM query), and
the stale entry is purged during the lookup — afterwards the cache
never maps the selector to the reclaimed reference. -/
theorem c8_stale_ref_miss_and_purge [Inhabited E] (qsa : String → List E)
    (q : String) (rl : Bool) (st : LRUCache (Option (List E)))
    (hnd : (keysOf st.cache).Nodup)
    (hstale : findVal q st.cache = some none) :
    (dollar qsa q rl true st).1 = (dollar qsa q rl false st).1 ∧
    findVal q ((dollar qsa q rl true st).2).cache ≠ some none := by
  have hget : LRUCache.get st q
      = (some none, ⟨st.max, eraseKey q st.cache ++ [(q, none)]⟩) := by
    simp [LRUCache.get, hstale]
  have h1 : hasKey q (eraseKey q st.cache) = false :=
    hasKey_eraseKey_self q st.cache hnd
  have hdel : LRUCache.delete (⟨st.max, eraseKey q st.cache ++ [(q, none)]⟩ :
      LRUCache (Option (List E))) q = ⟨st.max, eraseKey q st.cache⟩ := by
    unfold LRUCache.delete
    rw [eraseKey_append_left q _ [(q, none)] h1]
    simp [eraseKey]
  have hdollar : dollar qsa q rl true st
      = dollarQuery qsa q rl true (⟨st.max, eraseKey q st.cache⟩ :
          LRUCache (Option (List E))) := by
    rw [dollar, hget]
    simp [hdel]
  have huncached : dollar qsa q rl false st = dollarQuery qsa q rl false st := by
    simp [dollar]
  constructor
  · rw [hdollar, huncached]
    exact dollarQuery_fst qsa q rl true false _ st
  · rw [hdollar]
    by_cases hc1 : (qsa q).length = 0 ∧ rl = false
    · have hstate : (dollarQuery qsa q rl true (⟨st.max, eraseKey q st.cache⟩ :
          LRUCache (Option (List E)))).2 = ⟨st.max, eraseKey q st.cache⟩ := by
        unfold dollarQuery
        rw [if_pos hc1]
      rw [hstate]
      simp [(findVal_none_iff q (eraseKey q st.cache)).mpr h1]
    · have hstate : (dollarQuery qsa q rl true (⟨st.max, eraseKey q st.cache⟩ :
          LRUCache (Option (List E)))).2
          = (⟨st.max, eraseKey q st.cache⟩ : LRUCache (Option (List E))).set q
              (some (qsa q)) := by
        unfold dollarQuery
        rw [if_neg hc1]
        by_cases hc2 : (qsa q).length = 1 ∧ rl = false
        · rw [if_pos hc2]
          rfl
        · rw [if_neg hc2]
          rfl
      rw [hstate]
      rcases findVal_set_self (⟨st.max, eraseKey q st.cache⟩ :
          LRUCache (Option (List E))) q (some (qsa q)) h1 with h | h <;> simp [h]

/-- Witness for C8: a cache whose only entry for `"div"` is a reclaimed
reference behaves as a miss (same result as the uncached call) and the
stale entry is replaced by the fresh query's live entry. -/
theorem c8_witness :
    (dollar (fun _ => [5]) "div" false true
        (⟨100, [("div", none)]⟩ : LRUCache (Option (List Nat)))).1
      = (dollar (fun _ => [5]) "div" false false
          (⟨100, [("div", none)]⟩ : LRUCache (Option (List Nat)))).1 ∧
    findVal "div" ((dollar (fun _ => [5]) "div" false true
        (⟨100, [("div", none)]⟩ : LRUCache (Option (List Nat)))).2).cache
      ≠ some none :=
  c8_stale_ref_miss_and_purge (fun _ => [5]) "div" false ⟨100, [("div", none)]⟩
    (by decide) rfl

/-- C10: cached and uncached no-match results differ in shape at `$`:
for a selector matching zero elements the uncached single-element call
returns `null`; but once a `$(s, true, true)` call has cached the empty
array (and the weak reference is live), the single-element cached call
`$(s, false, true)` returns that empty array instead of `null` — and in
general any live cached sequence of length other than one is returned
as-is despite the single-element request. -/
theorem c10_cached_empty_vs_null [Inhabited E] (qsa : String → List E) (s : String)
    (st st' : LRUCache (Option (List E)))
    (hempty : qsa s = [])
    (hcached : findVal s st'.cache = some (some [])) :
    (dollar qsa s false false st).1 = SelResult.nil ∧
    (dollar qsa s false true st').1 = SelResult.many [] ∧
    (0 < st.max → findVal s st.cache = none →
      findVal s ((dollar qsa s true true st).2).cache = some (some [])) ∧
    (∀ (q : String) (c : LRUCache (Option (List E))) (cached : List E),
      findVal q c.cache = some (some cached) → cached.length ≠ 1 →
      (dollar qsa q false true c).1 = SelResult.many cached) := by
  refine ⟨?_, ?_, ?_, ?_⟩
  · simp [dollar, dollarQuery, hempty]
  · simp [dollar, LRUCache.get, hcached]
  · intro hmax hnone
    have hnk : hasKey s st.cache = false := (findVal_none_iff s st.cache).mp hnone
    rw [dollar]
    simp only [if_true]
    rw [LRUCache.get, hnone]
    unfold dollarQuery
    simp only [hempty]
    simp [findVal_set_self_live st s (some []) hnk hmax]
  · intro q c cached hc hlen
    simp [dollar, LRUCache.get, hc, hlen]

/-- Witness for C10: with a DOM in which selector `x` matches nothing,
the uncached single-element call returns `null`; after caching, the
cached single-element call returns the empty array; and a live cached
two-element array is returned as-is from a single-element call. -/
theorem c10_witness :
    (dollar (fun _ => ([] : List Nat)) "x" false false
        (⟨100, []⟩ : LRUCache (Option (List Nat)))).1 = SelResult.nil ∧
    (dollar (fun _ => ([] : List Nat)) "x" false true
        (⟨100, [("x", some [])]⟩ : LRUCache (Option (List Nat)))).1
      = SelResult.many [] ∧
    findVal "x" ((dollar (fun _ => ([] : List Nat)) "x" true true
        (⟨100, []⟩ : LRUCache (Option (List Nat)))).2).cache = some (some []) ∧
    (dollar (fun _ => ([] : List Nat)) "y" false true
        (⟨100, [("y", some [1, 2])]⟩ : LRUCache (Option (List Nat)))).1
      = SelResult.many [1, 2] := by
  have h := c10_cached_empty_vs_null (fun _ => ([] : List Nat)) "x"
    (⟨100, []⟩ : LRUCache (Option (List Nat)))
    (⟨100, [("x", some [])]⟩ : LRUCache (Option (List Nat))) rfl rfl
  exact ⟨h.1, h.2.1, h.2.2.1 (by decide) rfl,
    h.2.2.2 "y" ⟨100, [("y", some [1, 2])]⟩ [1, 2] rfl (by decide)⟩

end Yokto
